import Mathlib

/-!
Verification of the reserve-currency engine of `src/pbaas/reserves.cpp`
(VerusCoin). The C++ code is shallowly embedded:

* `CAmount` (`int64_t`) values are modelled as `ℤ`; where the code converts
  through the 256-bit unsigned type `arith_uint256`, the conversion is modelled
  explicitly (`u256`, sign extension mod `2^256`) and `GetLow64` interpreted as
  a signed 64-bit value is `i64ofN`.
* the boost `cpp_dec_float_50` decimal kernel is modelled by exact rationals
  `ℚ`; the binary `pow` on decimals is kept as an explicit function parameter
  `pw : ℚ → ℚ → ℚ` of every definition that uses it, so theorems hold for any
  implementation of `pow`; hypotheses such as `∀ x, pw x 1 = x` (true of any
  power function, in particular of boost's, which evaluates integer exponents
  exactly) are added only where a claim needs them.  `ratPow` is one concrete
  implementation, exact on integer exponents.
* C++ truncating division/remainder on signed integers is `Int.tdiv`/`Int.tmod`;
  unsigned 256-bit division is `ℕ` division.
* fallible code returns `Option`; an `assert(false)` abort is a distinguished
  outcome (`none` at the outermost `Option` layer).
-/

set_option maxRecDepth 10000

/-- `SATOSHIDEN = 100,000,000`, the fixed-point scale (spec §3, §6). -/
def SATOSHIDEN : ℤ := 100000000

/-- `SATOSHIDEN` as a natural number, for unsigned 256-bit arithmetic. -/
def SATn : ℕ := 100000000

/-- Largest `int64_t` value. -/
def INT64MAX : ℤ := 9223372036854775807

/-- Reinterpret the low 64 bits of an unsigned 256-bit value as a signed
`int64_t` (`arith_uint256::GetLow64` assigned to a `CAmount`). -/
def i64ofN (n : ℕ) : ℤ :=
  if n % 2 ^ 64 < 2 ^ 63 then ((n % 2 ^ 64 : ℕ) : ℤ)
  else ((n % 2 ^ 64 : ℕ) : ℤ) - 2 ^ 64

/-- Conversion of a signed 64-bit value into `arith_uint256`
(sign-extension, i.e. reduction mod `2^256`). -/
def u256 (x : ℤ) : ℕ := (x % (2 ^ 256 : ℤ)).toNat

/-- Truncation of a rational toward zero (the C++ decimal kernel's rounding;
spec §4.1: rounding is truncation toward zero). -/
def truncQ (q : ℚ) : ℤ := Int.tdiv q.num (q.den : ℤ)

/-- Modelled from the spec: the fixed-point arithmetic kernel's
`decimal → int64` conversion (`CCurrencyState::to_int64`, declared in the
header, not part of `src/`); per spec §4.1 it truncates toward zero and
returns failure on overflow (result outside the `int64` range). -/
def to_int64q (q : ℚ) : Option ℤ :=
  let t := truncQ q
  if -(2 ^ 63) ≤ t ∧ t ≤ INT64MAX then some t else none

/-- One concrete implementation of the decimal `pow`: exact on integer
exponents (boost's `pow` computes integer exponents exactly, by repeated
squaring of exact decimals); the value at non-integer exponents is irrelevant
to every theorem below, which either take `pw` abstract or apply it only at
integer exponents. -/
def ratPow (x e : ℚ) : ℚ := if e.den = 1 then x ^ e.num else 0

-- ------------------------------------------------------------------
-- Constants of the fee calculator (spec §4.3, §6: published chain
-- parameters; declared in the headers, not part of `src/`).
-- ------------------------------------------------------------------

/-- Modelled from the spec: `DEFAULT_PER_STEP_FEE` as published. -/
def DEFAULT_PER_STEP_FEE : ℤ := 10000

/-- Modelled from the spec: `DESTINATION_BYTE_DIVISOR` as published. -/
def DESTINATION_BYTE_DIVISOR : ℕ := 128

/-- Modelled from the spec: `SUCCESS_FEE` conversion fee rate as published. -/
def SUCCESS_FEE : ℤ := 25000

/-- Modelled from the spec: `MIN_SUCCESS_FEE` absolute fee floor as
published. -/
def MIN_SUCCESS_FEE : ℤ := 20000

-- ------------------------------------------------------------------
-- Transfer flags (spec §3, `ReserveTransfer` flag set; the numeric bit
-- assignments live in the header, not in `src/`).
-- ------------------------------------------------------------------

/-- Modelled from the spec: the CONVERT flag bit of a reserve transfer. -/
def FLAG_CONVERT : ℕ := 2

/-- Modelled from the spec: the PRECONVERT flag bit of a reserve transfer. -/
def FLAG_PRECONVERT : ℕ := 4

/-- Modelled from the spec: the FEE_OUTPUT flag bit of a reserve transfer. -/
def FLAG_FEE_OUTPUT : ℕ := 8

/-- Modelled from the spec: the RESERVE_TO_RESERVE flag bit of a reserve
transfer. -/
def FLAG_RESERVE_TO_RESERVE : ℕ := 1024

/-- `CReserveTransfer::CalculateTransferFee(destination, flags)`
(reserves.cpp line 31).  The C++ expression is

`DEFAULT_PER_STEP_FEE << 1 + ((DEFAULT_PER_STEP_FEE << 1) * (size / DESTINATION_BYTE_DIVISOR))`

in which `<<` binds looser than `+`, so the whole right-hand side of `+` is
part of the shift count.  The shift is modelled mathematically (multiplication
by a power of two); for `size ≥ DESTINATION_BYTE_DIVISOR` the C++ shift count
exceeds 63 and the `int64_t` shift is undefined behaviour. -/
def CalculateTransferFee (flags : ℕ) (destSize : ℕ) : ℤ :=
  if flags &&& FLAG_FEE_OUTPUT ≠ 0 ∨
     (flags &&& FLAG_PRECONVERT = 0 ∧ flags &&& FLAG_CONVERT ≠ 0) then 0
  else
    DEFAULT_PER_STEP_FEE *
      2 ^ (1 + ((DEFAULT_PER_STEP_FEE * 2) * ((destSize : ℤ) / (DESTINATION_BYTE_DIVISOR : ℤ)))).toNat

/-- The transfer fee the spec (§4.3) claims:
`(2·DEFAULT_PER_STEP_FEE) · (1 + k / DESTINATION_BYTE_DIVISOR)`. -/
def specTransferFee (destSize : ℕ) : ℤ :=
  (2 * DEFAULT_PER_STEP_FEE) * (1 + ((destSize : ℤ) / (DESTINATION_BYTE_DIVISOR : ℤ)))

/-- `CReserveTransactionDescriptor::CalculateConversionFeeNoMin`
(reserves.cpp line 3695). -/
def CalculateConversionFeeNoMin (inputAmount : ℤ) : ℤ :=
  i64ofN ((u256 inputAmount * u256 SUCCESS_FEE) / SATn)

/-- `CReserveTransactionDescriptor::CalculateConversionFee`
(reserves.cpp line 3702): the no-minimum fee clamped up to
`MIN_SUCCESS_FEE`. -/
def CalculateConversionFee (inputAmount : ℤ) : ℤ :=
  let fee := CalculateConversionFeeNoMin inputAmount
  if fee < MIN_SUCCESS_FEE then MIN_SUCCESS_FEE else fee

-- a reserve transfer, restricted to the fields the fee functions read
structure RTransfer where
  flags : ℕ
  reserveValues : List (ℕ × ℤ)   -- currency id → amount (first currency etc.)
deriving DecidableEq, Repr

/-- `CReserveTransfer::IsConversion` style flag test (header): CONVERT set. -/
def RTransfer.isConversion (t : RTransfer) : Bool := t.flags &&& FLAG_CONVERT ≠ 0

/-- PRECONVERT flag test. -/
def RTransfer.isPreConversion (t : RTransfer) : Bool := t.flags &&& FLAG_PRECONVERT ≠ 0

/-- RESERVE_TO_RESERVE flag test. -/
def RTransfer.isReserveToReserve (t : RTransfer) : Bool :=
  t.flags &&& FLAG_RESERVE_TO_RESERVE ≠ 0

/-- `CReserveTransfer::ConversionFee` (reserves.cpp line 58): a value map of
per-currency conversion fees, doubled (`retVal * 2`) for reserve-to-reserve
conversions.  The currency value map here is the association list of
`(currency, fee)` pairs in `reserveValues` order. -/
def RTransfer.ConversionFee (t : RTransfer) : List (ℕ × ℤ) :=
  if t.isConversion ∨ t.isPreConversion then
    let base := t.reserveValues.map (fun p => (p.1, CalculateConversionFee p.2))
    if t.isReserveToReserve then base.map (fun p => (p.1, p.2 * 2)) else base
  else []

-- sanity checks of the fee embedding on concrete values
example : CalculateConversionFee 100000000 = 25000 := by decide
example : CalculateConversionFee 1000 = 20000 := by decide
example : CalculateTransferFee 0 20 = 20000 := by decide
example : CalculateTransferFee FLAG_FEE_OUTPUT 20 = 0 := by decide
example : CalculateTransferFee FLAG_CONVERT 20 = 0 := by decide
example : CalculateTransferFee (FLAG_CONVERT ||| FLAG_PRECONVERT) 20 = 20000 := by decide

-- ------------------------------------------------------------------
-- Currency state (spec §3, C3) and its price helpers
-- ------------------------------------------------------------------

/-- Modelled from the spec: the FRACTIONAL flag of a currency state
(bit assignment lives in the header, not in `src/`). -/
def FLAG_FRACTIONAL : ℕ := 1

/-- `CCurrencyState`, restricted to the fields the verified operations read:
reserve currency ids, weights, reserves, supply, and the
`initialSupply`/`emitted` emission bookkeeping (spec §3). -/
structure CCState where
  currencies : List ℕ
  weights : List ℤ
  reserves : List ℤ
  supply : ℤ
  initialSupply : ℤ
  emitted : ℤ
  flags : ℕ
deriving DecidableEq, Repr

/-- `IsFractional()`: FRACTIONAL flag set. -/
def CCState.isFractional (st : CCState) : Bool := st.flags &&& FLAG_FRACTIONAL ≠ 0

/-- Modelled from the spec: `CCurrencyState::PriceInReserve(i)` (declared in
the header, defined outside `src/`).  The price of one fractional unit in
reserve `i` of a fractional basket is
`reserves[i] · SATOSHIDEN² / (supply · weights[i])` (spec §4.2: amounts are
normalized so one unit of reserve equals one unit of weight-adjusted value;
§4.1: truncation), computed in the 256-bit kernel with the low 64 bits taken;
a state with zero supply or zero weight prices at the weight itself (no
liquidity, spec I4). -/
def CCState.priceInReserve (st : CCState) (i : ℕ) : ℤ :=
  if i < st.reserves.length then
    if st.supply = 0 ∨ st.weights.getD i 0 = 0 then st.weights.getD i 0
    else
      i64ofN ((u256 (st.reserves.getD i 0) * SATn * SATn) /
              ((u256 st.supply * u256 (st.weights.getD i 0)) % 2 ^ 256))
  else 0

/-- `PricesInReserve()`: the vector of `priceInReserve` over all reserves. -/
def CCState.pricesInReserve (st : CCState) : List ℤ :=
  (List.range st.currencies.length).map st.priceInReserve

/-- Modelled from the spec: `CCurrencyState::ReserveToNative(amount, i)` —
convert a reserve amount into fractional units at the current price
(`amount · SATOSHIDEN / priceInReserve i`, zero price giving zero), in the
256-bit kernel with the low 64 bits reinterpreted as a signed `CAmount`
(which is how the caller in `src/` can observe a negative value on
overflow, reserves.cpp line 966). -/
def CCState.reserveToNative (st : CCState) (amount : ℤ) (i : ℕ) : ℤ :=
  let price := st.priceInReserve i
  if price = 0 then 0
  else i64ofN ((u256 amount * SATn) / u256 price)

/-- Modelled from the spec: the static `CCurrencyState::NativeToReserveRaw`
— convert fractional units to reserve at an explicit rate:
`native · rate / SATOSHIDEN` in the 256-bit kernel. -/
def NativeToReserveRaw (native rate : ℤ) : ℤ :=
  i64ofN ((u256 native * u256 rate) % 2 ^ 256 / SATn)

/-- Modelled from the spec: the static `CCurrencyState::ReserveToNativeRaw`
— convert a reserve amount to fractional units at an explicit rate:
`reserve · SATOSHIDEN / rate` (zero rate giving zero), in the 256-bit
kernel. -/
def ReserveToNativeRaw (amount rate : ℤ) : ℤ :=
  if rate = 0 then 0
  else i64ofN ((u256 amount * SATn) / u256 rate)

/-- `NativeToReserve(amount, i) = NativeToReserveRaw(amount, PriceInReserve(i))`
(modelled from the spec, like the raw form). -/
def CCState.nativeToReserve (st : CCState) (amount : ℤ) (i : ℕ) : ℤ :=
  NativeToReserveRaw amount (st.priceInReserve i)

-- ------------------------------------------------------------------
-- `UpdateWithEmission` (reserves.cpp line 3550, spec §4.5)
-- ------------------------------------------------------------------

/-- C++ truncating signed division (`Int.tdiv`), named for readability. -/
def cppDiv (a b : ℤ) : ℤ := Int.tdiv a b

/-- C++ truncating signed remainder. -/
def cppMod (a b : ℤ) : ℤ := Int.tmod a b

/-- The capped, banker-rounded new total reserve ratio computed by
`UpdateWithEmission` (reserves.cpp lines 3585-3600): with
`IR = Σ weights`, `bigScratch = IR·supply·SATOSHIDEN / (supply+toEmit)` in the
256-bit kernel, the ratio `bigScratch / SATOSHIDEN` is capped at `SATOSHIDEN`
and rounded half-to-even on its `SATOSHIDEN`-scaled remainder. -/
def emissionNewRatio (initialRatio supply toEmit : ℤ) : ℤ :=
  let bigScratch : ℕ :=
    (u256 initialRatio * u256 supply * SATn) % 2 ^ 256 /
      ((u256 supply + u256 toEmit) % 2 ^ 256)
  let bigRatio : ℕ := bigScratch / SATn
  let scratch2 : ℕ := if bigRatio ≥ SATn then SATn * SATn else bigScratch
  let ratio2 : ℕ := if bigRatio ≥ SATn then SATn else bigRatio
  let newRatio : ℤ := i64ofN ratio2
  let remainder : ℤ := i64ofN ((scratch2 - ratio2 * SATn) % 2 ^ 256)
  if remainder > SATOSHIDEN / 2 ∨
     (remainder = SATOSHIDEN / 2 ∧ newRatio % 2 = 1) then newRatio + 1
  else newRatio

/-- The weight update of `UpdateWithEmission` (reserves.cpp lines 3573-3643):
scale every weight down by its truncated share of the ratio delta, then
distribute the remaining difference as evenly as possible, shuffled by `sh`
(`std::shuffle` seeded from `supply + forAll + forSome` in the code; the
shuffle algorithm is implementation-defined, hence the parameter). -/
def emissionWeights (sh : List ℤ → List ℤ) (weights : List ℤ) (nCur : ℕ)
    (supply toEmit : ℤ) : List ℤ :=
  let initialRatio : ℤ := weights.foldl (· + ·) 0
  let newRatio : ℤ := emissionNewRatio initialRatio supply toEmit
  let ratioDelta : ℤ := initialRatio - newRatio
  let weightDeltas : List ℤ :=
    weights.map (fun w => i64ofN ((u256 ratioDelta * u256 w) % 2 ^ 256 / SATn))
  let weights1 : List ℤ := weights.zipWith (· - ·) weightDeltas
  let totalUpdates : ℤ := weightDeltas.foldl (· + ·) 0
  let updateExtra : ℤ := ratioDelta - totalUpdates
  if updateExtra = 0 then weights1
  else
    let n : ℤ := (nCur : ℤ)
    let forAll := cppDiv updateExtra n
    let forSome := cppMod updateExtra n
    -- the C++ loop decrements `forSome` while it is non-zero, so a
    -- negative `forSome` (possible only when `updateExtra` is negative)
    -- increments every entry
    let extraWeight : List ℤ :=
      (List.range nCur).map
        (fun (i : ℕ) => if forSome < 0 ∨ (i : ℤ) < forSome then forAll + 1 else forAll)
    weights1.zipWith (· - ·) (sh extraWeight)

/-- `CCurrencyState::UpdateWithEmission(toEmit)` (reserves.cpp line 3550).
`sh` is the `std::shuffle` of the remainder distribution (reserves.cpp line
3638): the C++ algorithm of `std::shuffle` is implementation-defined, so the
embedding takes the shuffle as a parameter; theorems add the hypothesis that
it permutes its input where they need it.  The state is updated:
`initialSupply := supply`, `emitted := 0`; non-fractional, non-positive-supply
or non-positive-reserve states just receive the emission into the supply
(replacing a negative supply); otherwise all weights are scaled down to the
banker-rounded new total ratio, the remainder being spread via `sh`. -/
def CCState.UpdateWithEmission (sh : List ℤ → List ℤ) (st0 : CCState)
    (toEmit : ℤ) : CCState :=
  let st := { st0 with initialSupply := st0.supply, emitted := 0 }
  if ¬ st.isFractional ∨ st.supply ≤ 0 ∨ st.reserves.all (· ≤ 0) then
    if st.supply < 0 then { st with emitted := toEmit, supply := toEmit }
    else { st with emitted := toEmit, supply := st.supply + toEmit }
  else if toEmit = 0 then st
  else
    { st with
      weights := emissionWeights sh st.weights st.currencies.length st.supply toEmit,
      emitted := toEmit, supply := st.supply + toEmit }

-- ------------------------------------------------------------------
-- The conversion formulas (reserves.cpp lines 728-788, spec §4.2)
-- ------------------------------------------------------------------

/-- The decimal value computed by `CalculateFractionalOut`
(reserves.cpp line 748): `SATOSHIDEN · supply · ((reservein/reserve + 1)^ratio − 1)`
with all operands scaled down by `SATOSHIDEN` and zero supply or reserve
substituted by one base unit. -/
def fractionalOutDec (pw : ℚ → ℚ → ℚ)
    (NormalizedReserveIn Supply NormalizedReserve reserveRatio : ℤ) : ℚ :=
  let reservein : ℚ := (NormalizedReserveIn : ℚ) / 100000000
  let supply : ℚ := ((if Supply ≠ 0 then Supply else 1 : ℤ) : ℚ) / 100000000
  let reserve : ℚ := ((if NormalizedReserve ≠ 0 then NormalizedReserve else 1 : ℤ) : ℚ) / 100000000
  let ratio : ℚ := (reserveRatio : ℚ) / 100000000
  100000000 * (supply * (pw (reservein / reserve + 1) ratio - 1))

/-- `CalculateFractionalOut` (reserves.cpp line 728): zero input buys
nothing; otherwise the decimal result is converted to `int64`, `-1` being
returned when the conversion overflows. -/
def CalculateFractionalOut (pw : ℚ → ℚ → ℚ)
    (NormalizedReserveIn Supply NormalizedReserve reserveRatio : ℤ) : ℤ :=
  if NormalizedReserveIn ≠ 0 then
    match to_int64q (fractionalOutDec pw NormalizedReserveIn Supply NormalizedReserve reserveRatio) with
    | some v => v
    | none => -1
  else 0

/-- The decimal value computed by `CalculateReserveOut`
(reserves.cpp line 779): `SATOSHIDEN · reserve · (1 − (1 − fractionalin/supply)^(1/ratio))`. -/
def reserveOutDec (pw : ℚ → ℚ → ℚ)
    (FractionalIn Supply NormalizedReserve reserveRatio : ℤ) : ℚ :=
  let fractionalin : ℚ := (FractionalIn : ℚ) / 100000000
  let supply : ℚ := ((if Supply ≠ 0 then Supply else 1 : ℤ) : ℚ) / 100000000
  let reserve : ℚ := ((if NormalizedReserve ≠ 0 then NormalizedReserve else 1 : ℤ) : ℚ) / 100000000
  let ratio : ℚ := (reserveRatio : ℚ) / 100000000
  100000000 * (reserve * (1 - pw (1 - fractionalin / supply) (1 / ratio)))

/-- `CalculateReserveOut` (reserves.cpp line 759): zero input sells nothing;
otherwise the decimal result is converted to `int64`, an overflow hitting
`assert(false)` (reserves.cpp line 784) — modelled as `none`. -/
def CalculateReserveOut (pw : ℚ → ℚ → ℚ)
    (FractionalIn Supply NormalizedReserve reserveRatio : ℤ) : Option ℤ :=
  if FractionalIn ≠ 0 then
    to_int64q (reserveOutDec pw FractionalIn Supply NormalizedReserve reserveRatio)
  else some 0

-- ------------------------------------------------------------------
-- `CCurrencyState::ConvertAmounts` (reserves.cpp line 794, spec §4.2)
-- ------------------------------------------------------------------

/-- The two ways `ConvertAmounts` bails out of its main computation:
`err` is an early `return initialRates` (the `_newState` argument is left
untouched); `abort` is a failed `assert`. -/
inductive CErr where
  | err : CErr
  | abort : CErr
deriving DecidableEq, Repr

/-- One entry of the `fractionalIn`/`fractionalOut` multimaps
(reserves.cpp line 920): sorted by the weight-adjusted delta ratio `key`,
carrying the remaining net amount and the currency id. -/
structure NetEntry where
  key : ℤ
  amt : ℤ
  cur : ℕ
deriving DecidableEq, Repr

/-- One conversion layer (reserves.cpp line 1011): total weight of the
participating currencies, total normalized amount, and the participants. -/
structure CLayer where
  weight : ℤ
  amount : ℤ
  ids : List ℕ
deriving DecidableEq, Repr

/-- The weight of the reserve with currency id `c`
(`weights[reserveMap[c]]`). -/
def CCState.weightOf (st : CCState) (c : ℕ) : ℤ :=
  st.weights.getD (st.currencies.indexOf c) 0

/-- Multimap insertion: an entry with an equal key goes after the existing
ones (`std::multimap::insert` order for equal keys). -/
def insertNet (e : NetEntry) : List NetEntry → List NetEntry
  | [] => [e]
  | x :: xs => if x.key ≤ e.key then x :: insertNet e xs else e :: x :: xs

/-- Lookup in an association map currency id → pair of amounts
(the `std::map<uint160, std::pair<CAmount, CAmount>>` of reserves.cpp
line 923). -/
def mapFind (m : List (ℕ × ℤ × ℤ)) (k : ℕ) : Option (ℤ × ℤ) :=
  (m.find? (fun p => p.1 = k)).map (·.2)

/-- Add `v` to the first component for key `k`, inserting `(v, 0)` when the
key is absent (reserves.cpp lines 1102-1109). -/
def mapAddFirst (m : List (ℕ × ℤ × ℤ)) (k : ℕ) (v : ℤ) : List (ℕ × ℤ × ℤ) :=
  match m with
  | [] => [(k, v, 0)]
  | p :: ps => if p.1 = k then (p.1, p.2.1 + v, p.2.2) :: ps else p :: mapAddFirst ps k v

/-- Add a pair componentwise for key `k`, inserting it when absent
(reserves.cpp lines 1148-1156). -/
def mapAddPair (m : List (ℕ × ℤ × ℤ)) (k : ℕ) (v1 v2 : ℤ) : List (ℕ × ℤ × ℤ) :=
  match m with
  | [] => [(k, v1, v2)]
  | p :: ps => if p.1 = k then (p.1, p.2.1 + v1, p.2.2 + v2) :: ps else p :: mapAddPair ps k v1 v2

/-- Add `v` to the second component for key `k`; the key must exist
(`assert(idIT != fractionalOutMap.end())`, reserves.cpp line 1188). -/
def mapAddSnd (m : List (ℕ × ℤ × ℤ)) (k : ℕ) (v : ℤ) : Option (List (ℕ × ℤ × ℤ)) :=
  match m with
  | [] => none
  | p :: ps => if p.1 = k then some ((p.1, p.2.1, p.2.2 + v) :: ps)
               else (mapAddSnd ps k v).map (p :: ·)

/-- Size validation of `ConvertAmounts` (reserves.cpp line 812): the two
input vectors match the currency count and, when present, so does the
cross-conversion matrix itself (its rows are checked separately and do
not make this validation fail). -/
def sizesOK (st : CCState) (inR inF : List ℤ) (pc : Option (List (List ℤ))) : Bool :=
  inR.length = inF.length && inR.length = st.currencies.length &&
  (match pc with
   | none => true
   | some cc => cc.length = st.currencies.length)

/-- Row validation of the cross-conversion matrix (reserves.cpp line 816):
when a row size mismatches, the scan for a non-zero input never happens and
the call takes the "no conversion" path. -/
def rowsOK (st : CCState) (pc : Option (List (List ℤ))) : Bool :=
  match pc with
  | none => true
  | some cc => cc.all (fun r => r.length = st.currencies.length)

/-- Whether any input amount is non-zero (reserves.cpp lines 825-843). -/
def haveConv (inR inF : List ℤ) : Bool :=
  inR.any (· ≠ 0) || inF.any (· ≠ 0)

/-- Net per-currency flow computation (reserves.cpp lines 960-997): reserve
inputs are converted to fractional units, the net flow of each currency is
weight-adjusted into a delta ratio, and the two sorted multimaps are built;
an overflow (negative `ReserveToNative` or a delta ratio beyond `INT64_MAX`)
is an error. -/
def netFlows (st : CCState) (inR inF : List ℤ) (maxRatio : ℤ) :
    Except CErr (List NetEntry × List NetEntry) :=
  (List.range st.currencies.length).foldlM
    (fun (acc : List NetEntry × List NetEntry) i => do
      let asNative := st.reserveToNative (inR.getD i 0) i
      if asNative < 0 then throw CErr.err
      let net := inF.getD i 0 - asNative
      if net > 0 then
        let bigDelta := (u256 net * u256 maxRatio) % 2 ^ 256 / u256 (st.weights.getD i 0)
        if bigDelta > INT64MAX.toNat then throw CErr.err
        pure (insertNet ⟨(bigDelta : ℤ), net, st.currencies.getD i 0⟩ acc.1, acc.2)
      else if net < 0 then
        let bigDelta := (u256 (-net) * u256 maxRatio) % 2 ^ 256 / u256 (st.weights.getD i 0)
        if bigDelta > INT64MAX.toNat then throw CErr.err
        pure (acc.1, insertNet ⟨(bigDelta : ℤ), -net, st.currencies.getD i 0⟩ acc.2)
      else
        pure acc)
    ([], [])

/-- One layer of the sell side (reserves.cpp lines 1025-1041): each
participant contributes `layerHeight · weight / maxRatio` of its remaining
amount; a negative remainder is an UNDERFLOW error. -/
def processLayerIn (st : CCState) (maxRatio height : ℤ) (es : List NetEntry) :
    Except CErr (CLayer × List NetEntry) := do
  let upd := es.map (fun e =>
    let w := st.weightOf e.cur
    let curAmt := i64ofN ((u256 height * u256 w) % 2 ^ 256 / u256 maxRatio)
    ({ e with amt := e.amt - curAmt }, w, curAmt))
  if upd.any (fun t => t.1.amt < 0) then throw CErr.err
  pure (⟨(upd.map (·.2.1)).foldl (· + ·) 0,
         (upd.map (·.2.2)).foldl (· + ·) 0,
         es.map (·.cur)⟩,
        upd.map (·.1))

/-- One layer of the buy side (reserves.cpp lines 1052-1068): like the sell
side except that a contribution beyond `INT64_MAX` is an OVERFLOW error and
a negative remainder trips an `assert`. -/
def processLayerOut (st : CCState) (maxRatio height : ℤ) (es : List NetEntry) :
    Except CErr (CLayer × List NetEntry) := do
  if es.any (fun e =>
      (u256 height * u256 (st.weightOf e.cur)) % 2 ^ 256 / u256 maxRatio > INT64MAX.toNat) then
    throw CErr.err
  let upd := es.map (fun e =>
    let w := st.weightOf e.cur
    let curAmt := i64ofN ((u256 height * u256 w) % 2 ^ 256 / u256 maxRatio)
    ({ e with amt := e.amt - curAmt }, w, curAmt))
  if upd.any (fun t => t.1.amt < 0) then throw CErr.abort
  pure (⟨(upd.map (·.2.1)).foldl (· + ·) 0,
         (upd.map (·.2.2)).foldl (· + ·) 0,
         es.map (·.cur)⟩,
        upd.map (·.1))

/-- Dropping a prefix never lengthens a list (termination helper). -/
theorem dropWhile_length_le {α : Type} (p : α → Bool) (l : List α) :
    (l.dropWhile p).length ≤ l.length := by
  induction l with
  | nil => simp
  | cons a t ih =>
    by_cases h : p a <;> simp [List.dropWhile, h] <;> omega

/-- Layer construction (reserves.cpp lines 1014-1069): starting above the
previous boundary, every remaining entry participates in a layer whose
height is the gap up to the next key; entries at or below the boundary are
final.  `isOut` selects the buy-side error handling. -/
def buildLayers (st : CCState) (maxRatio : ℤ) (isOut : Bool) :
    ℤ → List NetEntry → Except CErr (List CLayer)
  | la, ss =>
    match htl : ss.dropWhile (fun e => e.key ≤ la) with
    | [] => pure []
    | e :: rest =>
      match (if isOut then processLayerOut st maxRatio (e.key - la) (e :: rest)
             else processLayerIn st maxRatio (e.key - la) (e :: rest)) with
      | .error c => .error c
      | .ok (layer, upd) =>
        -- the head entry's key equals the new boundary, so the next
        -- `upper_bound` skips it: recursing on the tail is equivalent.
        -- `upd` has `rest.length + 1` elements (the layer processing is a
        -- map), so the `take` never truncates; it only exhibits the
        -- decreasing measure.
        match buildLayers st maxRatio isOut e.key (upd.tail.take rest.length) with
        | .error c => .error c
        | .ok ls => .ok (layer :: ls)
  termination_by la ss => ss.length
  decreasing_by
    have h1 : (ss.dropWhile (fun e => e.key ≤ la)).length ≤ ss.length :=
      dropWhile_length_le _ ss
    rw [htl] at h1
    simp only [List.length_take, List.length_tail, List.length_cons] at h1 ⊢
    omega

/-- The first buy pass (reserves.cpp lines 1076-1111): fold over the buy-side
layers accumulating added supply, added normalized reserves and the per-
currency supply map; an overflowed `CalculateFractionalOut` (negative result)
is a supply OVERFLOW error. -/
def buyPassFirst (pw : ℚ → ℚ → ℚ) (st : CCState) (layers : List CLayer) :
    Except CErr (ℤ × ℤ × List (ℕ × ℤ × ℤ)) :=
  layers.foldlM
    (fun (acc : ℤ × ℤ × List (ℕ × ℤ × ℤ)) L => do
      let (addSupply, addNR, m) := acc
      let totalLayerReserves :=
        i64ofN ((u256 st.supply * u256 L.weight) % 2 ^ 256 / SATn) + addNR
      let newSupply :=
        CalculateFractionalOut pw L.amount (st.supply + addSupply) totalLayerReserves L.weight
      if newSupply < 0 then throw CErr.err
      let m' := L.ids.foldl
        (fun mm c =>
          mapAddFirst mm c
            (i64ofN ((u256 newSupply * u256 (st.weightOf c)) % 2 ^ 256 / u256 L.weight))) m
      pure (addSupply + newSupply, addNR + L.amount, m'))
    (0, 0, [])

/-- The sell pass (reserves.cpp lines 1124-1158), computed against both the
pre-buy and the post-buy supply in one sweep; the decimal→int64 overflow
inside `CalculateReserveOut` aborts.  Note that the code adds the running
`addNormalizedReserves` into the reserve argument twice (lines 1133-1134),
which the embedding reproduces. -/
def sellPass (pw : ℚ → ℚ → ℚ) (st : CCState) (supplyAfterBuy : ℤ)
    (layers : List CLayer) :
    Except CErr (ℤ × ℤ × ℤ × List (ℕ × ℤ × ℤ)) :=
  layers.foldlM
    (fun (acc : ℤ × ℤ × ℤ × List (ℕ × ℤ × ℤ)) L => do
      let (addSupply, addBB, addAB, m) := acc
      let tBB := i64ofN ((u256 st.supply * u256 L.weight) % 2 ^ 256 / SATn) + addBB
      let tAB := i64ofN ((u256 supplyAfterBuy * u256 L.weight) % 2 ^ 256 / SATn) + addAB
      let rBB ←
        match CalculateReserveOut pw L.amount (st.supply + addSupply) (tBB + addBB) L.weight with
        | some v => pure v
        | none => throw CErr.abort
      let rAB ←
        match CalculateReserveOut pw L.amount (supplyAfterBuy + addSupply) (tAB + addAB) L.weight with
        | some v => pure v
        | none => throw CErr.abort
      let m' := L.ids.foldl
        (fun mm c =>
          mapAddPair mm c
            (i64ofN ((u256 rBB * u256 (st.weightOf c)) % 2 ^ 256 / u256 L.weight))
            (i64ofN ((u256 rAB * u256 (st.weightOf c)) % 2 ^ 256 / u256 L.weight))) m
      pure (addSupply - L.amount, addBB - rBB, addAB - rAB, m'))
    (0, 0, 0, [])

/-- The second buy pass, after the sell (reserves.cpp lines 1176-1192): like
the first but with no overflow check on the new supply, accumulating into the
second component of the map; a missing map entry trips an `assert`. -/
def buyPassSecond (pw : ℚ → ℚ → ℚ) (st : CCState) (supplyAfterSell : ℤ)
    (layers : List CLayer) (m0 : List (ℕ × ℤ × ℤ)) :
    Except CErr (List (ℕ × ℤ × ℤ)) := do
  let r ← layers.foldlM
    (fun (acc : ℤ × ℤ × List (ℕ × ℤ × ℤ)) L => do
      let (addSupply, addNR, m) := acc
      let t := i64ofN ((u256 supplyAfterSell * u256 L.weight) % 2 ^ 256 / SATn) + addNR
      let newSupply :=
        CalculateFractionalOut pw L.amount (supplyAfterSell + addSupply) t L.weight
      let m' ← L.ids.foldlM
        (fun mm c =>
          match mapAddSnd mm c
              (i64ofN ((u256 newSupply * u256 (st.weightOf c)) % 2 ^ 256 / u256 L.weight)) with
          | some mm' => pure mm'
          | none => throw CErr.abort) m
      pure (addSupply + newSupply, addNR + L.amount, m'))
    (0, 0, m0)
  pure r.2.2

/-- Price synthesis (reserves.cpp lines 1199-1243): for each currency, the
mean of the before/after deltas fixes the rate and updates the new state's
supply and reserve; the positivity `assert`s abort. -/
def priceSynthesis (st : CCState) (inR inF : List ℤ)
    (outMap inMap : List (ℕ × ℤ × ℤ)) : Except CErr (List ℤ × CCState) :=
  (List.range st.currencies.length).foldlM
    (fun (acc : List ℤ × CCState) i => do
      let (rates, nst) := acc
      let c := st.currencies.getD i 0
      let inputReserve := inR.getD i 0
      let inputFraction := inF.getD i 0
      match mapFind outMap c with
      | some (f1, f2) =>
        let fractionDelta := i64ofN ((u256 f1 + u256 f2) % 2 ^ 256 / 2)
        if inputFraction + fractionDelta ≤ 0 then throw CErr.abort
        let fsz := inputFraction + fractionDelta
        let rate := i64ofN ((u256 inputReserve * SATn) % 2 ^ 256 / u256 fsz)
        let addReserve :=
          if inF.getD i 0 ≠ 0 then NativeToReserveRaw fractionDelta rate else inR.getD i 0
        pure (rates.set i rate,
              { nst with supply := nst.supply + fractionDelta,
                         reserves := nst.reserves.modify (· + addReserve) i })
      | none =>
        match mapFind inMap c with
        | some (r1, r2) =>
          let adjusted := st.nativeToReserve (i64ofN ((u256 r1 + u256 r2) % 2 ^ 256 / 2)) i
          let rsz := inputReserve + adjusted
          if inputFraction ≤ 0 then throw CErr.abort
          let rate := i64ofN ((u256 rsz * SATn) % 2 ^ 256 / u256 inputFraction)
          pure (rates.set i rate,
                { nst with supply := nst.supply - inputFraction,
                           reserves := nst.reserves.modify (· - adjusted) i })
        | none => pure acc)
    (List.replicate st.currencies.length 0, st)

/-- The main computation of `ConvertAmounts` (reserves.cpp lines 860-1243),
from the negative-amount validation through price synthesis; errors
correspond to the early `return initialRates` exits, aborts to failed
`assert`s. -/
def mainBody (pw : ℚ → ℚ → ℚ) (st : CCState) (inR inF : List ℤ) :
    Except CErr (List ℤ × CCState) := do
  if inR.any (· < 0) || inF.any (· < 0) then throw CErr.err
  let maxRatio := st.weights.foldl (fun a w => if w > a then w else a) 0
  let totalWeight := st.weights.foldl (· + ·) 0
  if st.weights.any (· = 0) then throw CErr.err
  if maxRatio = 0 then throw CErr.err
  if u256 totalWeight > SATn then throw CErr.err
  let (fIn, fOut) ← netFlows st inR inF maxRatio
  let layersIn ← buildLayers st maxRatio false 0 fIn
  let layersOut ← buildLayers st maxRatio true 0 fOut
  let (addSupplyB, addNRB, outMap) ← buyPassFirst pw st layersOut
  let supplyAfterBuy := st.supply + addSupplyB
  if supplyAfterBuy < 0 then throw CErr.abort
  let reserveAfterBuy := st.supply + addNRB
  if reserveAfterBuy < 0 then throw CErr.abort
  let (addSupplyS, addBB, addAB, inMap) ← sellPass pw st supplyAfterBuy layersIn
  let supplyAfterSell := st.supply + addSupplyS
  if supplyAfterSell < 0 then throw CErr.abort
  if supplyAfterBuy + addSupplyS < 0 then throw CErr.abort
  if st.supply + addBB < 0 then throw CErr.abort
  if reserveAfterBuy + addAB < 0 then throw CErr.abort
  let outMap2 ← buyPassSecond pw st supplyAfterSell layersOut outMap
  priceSynthesis st inR inF outMap2 inMap

/-- The final rate fix-up (reserves.cpp lines 1302-1308): a zero rate is
replaced by the prior price in reserve of the state the method was invoked
on. -/
def fixRates (st : CCState) (rates : List ℤ) : List ℤ :=
  (List.range rates.length).map
    (fun i => if rates.getD i 0 = 0 then st.priceInReserve i else rates.getD i 0)

/-- `ConvertAmounts` without cross conversions (a call with
`pCrossConversions = nullptr`, which the cross-conversion recursion at
reserves.cpp line 1293 performs).  The result is `none` on an `assert`
failure; otherwise `(rates, newState?)` where a `none` state means the
`_newState` out-argument was left untouched. -/
def ConvertAmountsNoCross (pw : ℚ → ℚ → ℚ) (st : CCState) (inR inF : List ℤ) :
    Option (List ℤ × Option CCState) :=
  if ¬ sizesOK st inR inF none then some (st.pricesInReserve, none)
  else if ¬ haveConv inR inF then some (st.pricesInReserve, some st)
  else
    match mainBody pw st inR inF with
    | .error .abort => none
    | .error .err => some (st.pricesInReserve, none)
    | .ok (rates, nst) => some (fixRates st rates, some nst)

/-- `CCurrencyState::ConvertAmounts` (reserves.cpp line 794).  Result:
`none` models a failed `assert` (process abort); otherwise
`(rates, newState?, viaPrices?)`, the `Option`s recording whether the
`_newState` and `*pViaPrices` out-arguments were written.  A cross-conversion
row size mismatch suppresses the non-zero-input scan (reserves.cpp lines
816-823), taking the "no conversion" path that copies the input state into
`_newState`. -/
def ConvertAmounts (pw : ℚ → ℚ → ℚ) (st : CCState) (inR inF : List ℤ)
    (pc : Option (List (List ℤ))) :
    Option (List ℤ × Option CCState × Option (List ℤ)) :=
  if ¬ sizesOK st inR inF pc then some (st.pricesInReserve, none, none)
  else if ¬ (rowsOK st pc && haveConv inR inF) then
    some (st.pricesInReserve, some st, none)
  else
    match mainBody pw st inR inF with
    | .error .abort => none
    | .error .err => some (st.pricesInReserve, none, none)
    | .ok (rates, nst) =>
      match pc with
      | none => some (fixRates st rates, some nst, none)
      | some cc =>
        let n := st.currencies.length
        if cc.all (fun row => row.all (· = 0)) then
          some (fixRates st rates, some nst, none)
        else
          let fracs := (List.range n).map
            (fun j =>
              (List.range n).foldl
                (fun a i =>
                  if ((cc.getD i []).foldl (· + ·) 0 ≠ 0) ∧ (cc.getD i []).getD j 0 ≠ 0 then
                    a + ReserveToNativeRaw ((cc.getD i []).getD j 0) (rates.getD i 0)
                  else a)
                0)
          match ConvertAmountsNoCross pw nst (List.replicate n 0) fracs with
          | none => none
          | some (vRates, mNst) =>
            some (fixRates st rates, some (mNst.getD nst), some vRates)

-- ==================================================================
-- Theorems
-- ==================================================================

-- Scenario state of the spec's concrete scenario 1 (single reserve,
-- weight = SATOSHIDEN, supply = reserve = 4·10⁸).
def stC1 : CCState :=
  { currencies := [7], weights := [100000000], reserves := [400000000],
    supply := 400000000, initialSupply := 0, emitted := 0, flags := 1 }

-- The expected post-state: supply and the single reserve both 5·10⁸.
def stC1after : CCState :=
  { currencies := [7], weights := [100000000], reserves := [500000000],
    supply := 500000000, initialSupply := 0, emitted := 0, flags := 1 }

/-- Any `ConvertAmounts` call that completes without an `assert` failure and
does not write the `_newState` out-argument has taken one of the early error
exits, all of which return the prior price vector and never write
`*pViaPrices` (shared helper behind the error-handling claims). -/
theorem convertFail_initialRates (pw : ℚ → ℚ → ℚ) (st : CCState)
    (inR inF : List ℤ) (pc : Option (List (List ℤ))) (rates : List ℤ)
    (via : Option (List ℤ))
    (h : ConvertAmounts pw st inR inF pc = some (rates, none, via)) :
    rates = st.pricesInReserve ∧ via = none := by
  unfold ConvertAmounts at h
  split at h
  · simp only [Option.some.injEq, Prod.mk.injEq] at h
    exact ⟨h.1.symm, h.2.2.symm⟩
  · split at h
    · simp only [Option.some.injEq, Prod.mk.injEq] at h
      exact absurd h.2.1.symm (by simp)
    · split at h
      · cases h
      · simp only [Option.some.injEq, Prod.mk.injEq] at h
        exact ⟨h.1.symm, h.2.2.symm⟩
      · rename_i rates' nst _
        split at h
        · simp only [Option.some.injEq, Prod.mk.injEq] at h
          exact absurd h.2.1.symm (by simp)
        · split at h
          · simp only [Option.some.injEq, Prod.mk.injEq] at h
            exact absurd h.2.1.symm (by simp)
          · dsimp only at h
            split at h
            · cases h
            · simp only [Option.some.injEq, Prod.mk.injEq] at h
              exact absurd h.2.1.symm (by simp)

/-- C3 (amended): every failing `ConvertAmounts` call — one that leaves the
`_newState` out-argument unwritten — returns exactly the prior price vector
`PricesInReserve` and never writes `*pViaPrices`; a size mismatch of the two
input vectors or of the cross-conversion matrix itself fails that way; but a
cross-conversion *row* size mismatch is instead treated as the no-conversion
case, returning prior prices while setting `_newState` to a copy of the
input state. -/
theorem convertAmounts_error_paths :
    (∀ (pw : ℚ → ℚ → ℚ) (st : CCState) (inR inF : List ℤ)
       (pc : Option (List (List ℤ))) (rates : List ℤ) (via : Option (List ℤ)),
       ConvertAmounts pw st inR inF pc = some (rates, none, via) →
       rates = st.pricesInReserve ∧ via = none) ∧
    (∀ (pw : ℚ → ℚ → ℚ) (st : CCState) (inR inF : List ℤ)
       (pc : Option (List (List ℤ))), sizesOK st inR inF pc = false →
       ConvertAmounts pw st inR inF pc = some (st.pricesInReserve, none, none)) ∧
    (∀ (pw : ℚ → ℚ → ℚ) (st : CCState) (inR inF : List ℤ)
       (pc : Option (List (List ℤ))), sizesOK st inR inF pc = true →
       (rowsOK st pc && haveConv inR inF) = false →
       ConvertAmounts pw st inR inF pc = some (st.pricesInReserve, some st, none)) := by
  refine ⟨convertFail_initialRates, ?_, ?_⟩
  · intro pw st inR inF pc h
    unfold ConvertAmounts
    rw [if_pos (by simp [h])]
  · intro pw st inR inF pc hs hc
    unfold ConvertAmounts
    rw [if_neg (by simp [hs]), if_pos (by simp [hc])]

/-- C3 counterexample: with a cross-conversion row of mismatched size and a
non-zero input — an input with "mismatched vector sizes" — `ConvertAmounts`
does not leave the caller's `_newState` untouched: it writes a copy of the
input state into it (while returning the prior prices). -/
theorem convertAmounts_row_mismatch_writes_newState :
    ConvertAmounts ratPow stC1 [1] [0] (some [[]]) =
      some (stC1.pricesInReserve, some stC1, none) ∧
    some stC1 ≠ (none : Option CCState) := by
  exact ⟨by decide, by decide⟩

/-- Witness for the C3 theorem: a 1-currency state called with empty input
vectors takes the size-mismatch exit with prior prices and an untouched
state. -/
theorem convertAmounts_error_paths_witness :
    ConvertAmounts ratPow stC1 [] [] none = some (stC1.pricesInReserve, none, none) ∧
    stC1.pricesInReserve = stC1.pricesInReserve ∧ (none : Option (List ℤ)) = none := by
  have h := convertAmounts_error_paths.2.1 ratPow stC1 [] [] none (by decide)
  exact ⟨h, (convertAmounts_error_paths.1 ratPow stC1 [] [] none _ _ h).1 ▸ rfl,
         (convertAmounts_error_paths.1 ratPow stC1 [] [] none _ _ h).2⟩

/-- C10: a correctly sized call whose reserve and fractional inputs are all
zero is treated as success, not a validation failure: the `_newState`
out-argument receives an exact copy of the input state and the prior price
vector `PricesInReserve` is returned. -/
theorem convertAmounts_zero_inputs (pw : ℚ → ℚ → ℚ) (st : CCState)
    (inR inF : List ℤ) (pc : Option (List (List ℤ)))
    (hs : sizesOK st inR inF pc = true)
    (hR : inR.all (· = 0) = true) (hF : inF.all (· = 0) = true) :
    ConvertAmounts pw st inR inF pc = some (st.pricesInReserve, some st, none) := by
  have hc : haveConv inR inF = false := by
    unfold haveConv
    simp only [List.all_eq_true, decide_eq_true_eq] at hR hF
    rw [Bool.or_eq_false_iff]
    constructor <;> rw [List.any_eq_false] <;> intro x hx <;> simp
    · exact hR x hx
    · exact hF x hx
  unfold ConvertAmounts
  rw [if_neg (by simp [hs]), if_pos (by simp [hc])]

/-- Witness for C10: the scenario state with a zero input vector pair. -/
theorem convertAmounts_zero_inputs_witness :
    ConvertAmounts ratPow stC1 [0] [0] none =
      some (stC1.pricesInReserve, some stC1, none) :=
  convertAmounts_zero_inputs ratPow stC1 [0] [0] none (by decide) (by decide) (by decide)

/-- C5: the transfer fee code takes the precedence-bugged branch: for a
127-byte destination the fee is `20000 = (2·DEFAULT_PER_STEP_FEE)·(1+127/128)`
as the spec claims, but for a 128-byte destination the C++ expression shifts
`DEFAULT_PER_STEP_FEE` left by `1 + 2·DEFAULT_PER_STEP_FEE` bits (undefined
behaviour on `int64_t`; mathematically `10000·2^20001`) instead of returning
`40000`. -/
theorem calculateTransferFee_precedence :
    CalculateTransferFee 0 127 = 20000 ∧
    specTransferFee 127 = 20000 ∧
    CalculateTransferFee 0 128 = 10000 * 2 ^ (20001 : ℕ) ∧
    specTransferFee 128 = 40000 ∧
    CalculateTransferFee 0 128 ≠ specTransferFee 128 := by
  have h3 : CalculateTransferFee 0 128 = 10000 * 2 ^ (20001 : ℕ) := by
    unfold CalculateTransferFee
    rw [if_neg (by decide)]
    congr 1
  have h4 : specTransferFee 128 = 40000 := by decide
  refine ⟨by decide, by decide, h3, h4, ?_⟩
  rw [h3, h4]
  have hpow : (2 : ℤ) ^ (3 : ℕ) ≤ 2 ^ (20001 : ℕ) :=
    pow_le_pow_right (by norm_num) (by norm_num)
  nlinarith

-- A non-fractional state with negative supply (for the C8 counterexample).
def stC8 : CCState :=
  { currencies := [3], weights := [40000000], reserves := [100000000],
    supply := -5, initialSupply := 0, emitted := 0, flags := 0 }

/-- C8 counterexample: on a non-fractional state with supply `-5`, emitting
`10` does not "simply add" — the supply is replaced by the emission
(`supply = 10`, not `-5 + 10 = 5`). -/
theorem updateWithEmission_negative_supply_replaces :
    (stC8.UpdateWithEmission id 10).supply = 10 ∧
    stC8.supply + 10 = 5 ∧ (10 : ℤ) ≠ 5 := by
  exact ⟨by decide, by decide, by decide⟩

/-- C8 (amended): for a state that is not fractional, has supply ≤ 0 or has
no positive reserve, `UpdateWithEmission(toEmit)` leaves weights and
reserves untouched and adds `toEmit` to the supply when the supply is
non-negative; a negative supply is instead *replaced* by `toEmit`. -/
theorem updateWithEmission_simple_add (sh : List ℤ → List ℤ) (st : CCState)
    (toEmit : ℤ)
    (h : ¬ st.isFractional = true ∨ st.supply ≤ 0 ∨ st.reserves.all (· ≤ 0) = true) :
    (st.UpdateWithEmission sh toEmit).weights = st.weights ∧
    (st.UpdateWithEmission sh toEmit).reserves = st.reserves ∧
    (st.UpdateWithEmission sh toEmit).supply =
      (if st.supply < 0 then toEmit else st.supply + toEmit) := by
  unfold CCState.UpdateWithEmission
  rw [if_pos (by simpa [CCState.isFractional] using h)]
  by_cases hneg : st.supply < 0
  · rw [if_pos hneg, if_pos hneg]
    exact ⟨rfl, rfl, rfl⟩
  · rw [if_neg hneg, if_neg hneg]
    exact ⟨rfl, rfl, rfl⟩

/-- Witness for the C8 theorem: a plain token state with supply 7 emitting 5
ends at supply 12 with weights and reserves unchanged. -/
theorem updateWithEmission_simple_add_witness :
    (CCState.UpdateWithEmission id
      { currencies := [3], weights := [40000000], reserves := [100000000],
        supply := 7, initialSupply := 0, emitted := 0, flags := 0 } 5).weights
        = [40000000] ∧
    (CCState.UpdateWithEmission id
      { currencies := [3], weights := [40000000], reserves := [100000000],
        supply := 7, initialSupply := 0, emitted := 0, flags := 0 } 5).reserves
        = [100000000] ∧
    (CCState.UpdateWithEmission id
      { currencies := [3], weights := [40000000], reserves := [100000000],
        supply := 7, initialSupply := 0, emitted := 0, flags := 0 } 5).supply
        = (if (7 : ℤ) < 0 then 5 else 7 + 5) := by
  exact updateWithEmission_simple_add id _ 5 (Or.inl (by decide))

/-- A cast integer truncates to itself. -/
theorem truncQ_intCast (z : ℤ) : truncQ (z : ℚ) = z := by
  simp [truncQ, Rat.num_intCast, Rat.den_intCast]

/-- C9 counterexample: a concrete `CalculateReserveOut` input whose decimal
result `2^63` does not fit in an `int64`: the decimal→int64 conversion fails
and the function aborts (`assert(false)`, modelled `none`) instead of
returning a failure indication. -/
theorem calculateReserveOut_overflow_aborts :
    to_int64q (reserveOutDec ratPow 200000000 100000000 4611686018427387904 100000000)
      = none ∧
    CalculateReserveOut ratPow 200000000 100000000 4611686018427387904 100000000
      = none := by
  have hval : reserveOutDec ratPow 200000000 100000000 4611686018427387904 100000000
      = ((9223372036854775808 : ℤ) : ℚ) := by
    unfold reserveOutDec ratPow
    norm_num
  have hconv : to_int64q (reserveOutDec ratPow 200000000 100000000
      4611686018427387904 100000000) = none := by
    rw [hval]
    simp only [to_int64q, truncQ_intCast]
    norm_num [INT64MAX]
  refine ⟨hconv, ?_⟩
  unfold CalculateReserveOut
  rw [if_pos (by decide)]
  exact hconv

/-- C9 (amended): on a decimal→int64 overflow `CalculateFractionalOut`
returns the failure indication `-1`, and any `ConvertAmounts` call that ends
without writing `_newState` returns the initial prices; `CalculateReserveOut`,
however, aborts (`assert(false)`) on overflow rather than returning a failure
indication. -/
theorem decOverflow_handling :
    (∀ (pw : ℚ → ℚ → ℚ) (r s nr w : ℤ), r ≠ 0 →
        to_int64q (fractionalOutDec pw r s nr w) = none →
        CalculateFractionalOut pw r s nr w = -1) ∧
    (∀ (pw : ℚ → ℚ → ℚ) (f s nr w : ℤ), f ≠ 0 →
        to_int64q (reserveOutDec pw f s nr w) = none →
        CalculateReserveOut pw f s nr w = none) ∧
    (∀ (pw : ℚ → ℚ → ℚ) (st : CCState) (inR inF : List ℤ)
       (pc : Option (List (List ℤ))) (rates : List ℤ) (via : Option (List ℤ)),
        ConvertAmounts pw st inR inF pc = some (rates, none, via) →
        rates = st.pricesInReserve) := by
  refine ⟨?_, ?_, ?_⟩
  · intro pw r s nr w hr h
    unfold CalculateFractionalOut
    rw [if_pos hr, h]
  · intro pw f s nr w hf h
    unfold CalculateReserveOut
    rw [if_pos hf]
    exact h
  · intro pw st inR inF pc rates via h
    exact (convertFail_initialRates pw st inR inF pc rates via h).1

/-- Witness for the C9 theorem: a concrete overflowing buy
(`10⁸·2²⁶` reserve in at the same supply against one unit of reserve, whose
decimal result `10⁸·2⁵²` exceeds `INT64_MAX`) returns `-1`. -/
theorem decOverflow_handling_witness :
    CalculateFractionalOut ratPow 6710886400000000 6710886400000000
      100000000 100000000 = -1 := by
  refine decOverflow_handling.1 ratPow _ _ _ _ (by decide) ?_
  have hval : fractionalOutDec ratPow 6710886400000000 6710886400000000
      100000000 100000000 = ((450359962737049600000000 : ℤ) : ℚ) := by
    unfold fractionalOutDec ratPow
    norm_num
  rw [hval]
  simp only [to_int64q, truncQ_intCast]
  norm_num [INT64MAX]

-- ------------------------------------------------------------------
-- C4: aggregation of a conversion batch and order independence
-- ------------------------------------------------------------------

/-- Add `v` into position `i` of an aggregation vector (one
`valueMap[...] += value` accumulation of reserves.cpp lines 2827-2836, after
`AsCurrencyVector` places map entries at their reserve positions). -/
def addAt (l : List ℤ) (i : ℕ) (v : ℤ) : List ℤ := l.modify (· + v) i

/-- One conversion transfer as aggregated for the final `ConvertAmounts`
call: the reserve position it touches, its direction (`toFractional` is the
reserve-in/buy side accumulated into `reserveConverted`; otherwise the
amount joins `fractionalConverted`), and the amount. -/
structure ConvStep where
  idx : ℕ
  toFractional : Bool
  amount : ℤ
deriving DecidableEq, Repr

/-- Aggregation of an ordered batch of conversion transfers into the
`inputReserves`/`inputFractional` vectors handed to one `ConvertAmounts`
call (reserves.cpp lines 2827-2836, consumed at lines 3030-3034). -/
def aggregateConversions (n : ℕ) (ts : List ConvStep) : List ℤ × List ℤ :=
  ts.foldl
    (fun acc t =>
      if t.toFractional then (addAt acc.1 t.idx t.amount, acc.2)
      else (acc.1, addAt acc.2 t.idx t.amount))
    (List.replicate n 0, List.replicate n 0)

/-- In-place additions at (possibly equal) positions commute. -/
theorem addAt_comm (l : List ℤ) (i j : ℕ) (v w : ℤ) :
    addAt (addAt l i v) j w = addAt (addAt l j w) i v := by
  induction l generalizing i j with
  | nil => simp [addAt]
  | cons a t ih =>
    cases i with
    | zero =>
      cases j with
      | zero => simp [addAt]; ring
      | succ j' => simp [addAt]
    | succ i' =>
      cases j with
      | zero => simp [addAt]
      | succ j' => simpa [addAt] using ih i' j'

/-- Aggregation is invariant under permutation of the batch. -/
theorem aggregateConversions_perm (n : ℕ) {ts ts' : List ConvStep}
    (p : ts.Perm ts') :
    aggregateConversions n ts = aggregateConversions n ts' := by
  unfold aggregateConversions
  exact p.foldl_eq'
    (fun x _ y _ z => by
      cases hx : x.toFractional <;> cases hy : y.toFractional <;>
        simp [hx, hy, addAt_comm])
    _

/-- C4: permuting the transfers of a conversion batch leaves the aggregated
`inputReserves`/`inputFractional` vectors — integer sums per currency —
unchanged, hence the deterministic `ConvertAmounts` produces identical rates,
identical `newState` and identical via prices. -/
theorem convertAmounts_batch_order_independent (pw : ℚ → ℚ → ℚ)
    (st : CCState) (pc : Option (List (List ℤ))) (n : ℕ)
    (ts ts' : List ConvStep) (hp : ts.Perm ts') :
    ConvertAmounts pw st (aggregateConversions n ts).1
        (aggregateConversions n ts).2 pc =
      ConvertAmounts pw st (aggregateConversions n ts').1
        (aggregateConversions n ts').2 pc := by
  rw [aggregateConversions_perm n hp]

/-- Witness for C4: a two-transfer batch (one buy of 5 at position 0, one
sell of 3 at position 0) aggregated in both orders. -/
theorem convertAmounts_batch_order_independent_witness :
    ConvertAmounts ratPow stC1
        (aggregateConversions 1 [⟨0, true, 5⟩, ⟨0, false, 3⟩]).1
        (aggregateConversions 1 [⟨0, true, 5⟩, ⟨0, false, 3⟩]).2 none =
      ConvertAmounts ratPow stC1
        (aggregateConversions 1 [⟨0, false, 3⟩, ⟨0, true, 5⟩]).1
        (aggregateConversions 1 [⟨0, false, 3⟩, ⟨0, true, 5⟩]).2 none :=
  convertAmounts_batch_order_independent ratPow stC1 none 1 _ _ (by decide)

-- ------------------------------------------------------------------
-- C6: the conversion fee
-- ------------------------------------------------------------------

/-- For amounts in the `int64` range the no-minimum conversion fee is the
exact truncated proportion `a · SUCCESS_FEE / SATOSHIDEN`. -/
theorem calcFeeNoMin_eq (a : ℤ) (h0 : 0 ≤ a) (h1 : a ≤ INT64MAX) :
    CalculateConversionFeeNoMin a = a * SUCCESS_FEE / SATOSHIDEN := by
  unfold INT64MAX at h1
  have hu : u256 a = a.toNat := by
    unfold u256
    rw [Int.emod_eq_of_lt h0 (by omega)]
  have hs : u256 SUCCESS_FEE = 25000 := by decide
  unfold CalculateConversionFeeNoMin
  rw [hu, hs]
  unfold i64ofN SUCCESS_FEE SATn SATOSHIDEN
  split <;> omega

/-- C6: for every conversion input amount in range, the computed conversion
fee is `a·SUCCESS_FEE/SATOSHIDEN` clamped up to `MIN_SUCCESS_FEE` (hence
always at least `MIN_SUCCESS_FEE`), and a reserve-to-reserve conversion's
fee map is exactly the doubled per-currency fee map. -/
theorem conversionFee_formula :
    (∀ a : ℤ, 0 ≤ a → a ≤ INT64MAX →
        CalculateConversionFee a =
          max (a * SUCCESS_FEE / SATOSHIDEN) MIN_SUCCESS_FEE ∧
        MIN_SUCCESS_FEE ≤ CalculateConversionFee a) ∧
    (∀ t : RTransfer, t.isConversion = true → t.isReserveToReserve = true →
        t.ConversionFee =
          t.reserveValues.map (fun p => (p.1, CalculateConversionFee p.2 * 2))) := by
  constructor
  · intro a h0 h1
    have hno := calcFeeNoMin_eq a h0 h1
    unfold CalculateConversionFee
    rw [hno]
    constructor
    · rcases le_or_lt MIN_SUCCESS_FEE (a * SUCCESS_FEE / SATOSHIDEN) with h | h
      · rw [if_neg (by omega), max_eq_left h]
      · rw [if_pos h, max_eq_right (le_of_lt h)]
    · dsimp only
      split <;> omega
  · intro t hconv hr2r
    unfold RTransfer.ConversionFee
    rw [if_pos (Or.inl hconv)]
    simp only [hr2r, if_pos]
    rw [List.map_map]
    rfl

/-- Witness for C6: one unit converted reserve-to-reserve pays twice the
`25000` base fee per entry; a tiny amount is clamped to the floor. -/
theorem conversionFee_formula_witness :
    (CalculateConversionFee 100000000 =
        max ((100000000 : ℤ) * SUCCESS_FEE / SATOSHIDEN) MIN_SUCCESS_FEE ∧
      MIN_SUCCESS_FEE ≤ CalculateConversionFee 100000000) ∧
    RTransfer.ConversionFee ⟨FLAG_CONVERT ||| FLAG_RESERVE_TO_RESERVE, [(9, 100000000)]⟩ =
      [(9, CalculateConversionFee 100000000 * 2)] := by
  exact ⟨conversionFee_formula.1 100000000 (by decide) (by decide),
         conversionFee_formula.2 _ (by decide) (by decide)⟩

-- ------------------------------------------------------------------
-- C7: emission against a fractional state
-- ------------------------------------------------------------------

/-- Folding addition from an arbitrary seed is the seed plus the sum. -/
theorem foldl_add_eq (l : List ℤ) (b : ℤ) : l.foldl (· + ·) b = b + l.sum := by
  induction l generalizing b with
  | nil => simp
  | cons a t ih => rw [List.foldl_cons, ih, List.sum_cons]; ring

/-- Sum of an elementwise difference of equally long lists. -/
theorem sum_zipWith_sub : ∀ (l₁ l₂ : List ℤ), l₁.length = l₂.length →
    (List.zipWith (· - ·) l₁ l₂).sum = l₁.sum - l₂.sum := by
  intro l₁
  induction l₁ with
  | nil =>
    intro l₂ h
    rw [List.length_nil] at h
    rw [List.eq_nil_of_length_eq_zero h.symm]
    simp
  | cons a t ih =>
    intro l₂ h
    cases l₂ with
    | nil => simp at h
    | cons b t₂ =>
      simp only [List.zipWith_cons_cons, List.sum_cons]
      rw [ih t₂ (by simpa using h)]
      ring

/-- A list of positive integers has a non-negative sum. -/
theorem sum_pos_nonneg (ws : List ℤ) (h : ∀ w ∈ ws, 0 < w) : 0 ≤ ws.sum := by
  induction ws with
  | nil => simp
  | cons a t ih =>
    rw [List.sum_cons]
    have := h a (by simp)
    have := ih (fun w hw => h w (by simp [hw]))
    omega

/-- Sum of the emission remainder-distribution vector: `forAll` per entry
plus one for the first `forSome` entries. -/
theorem extras_sum (fa fs : ℤ) (h0 : 0 ≤ fs) :
    ∀ n : ℕ, ((List.range n).map
        (fun (i : ℕ) => if fs < 0 ∨ (i : ℤ) < fs then fa + 1 else fa)).sum
      = n * fa + min fs n := by
  intro n
  induction n with
  | zero => simp; omega
  | succ m ih =>
    rw [List.range_succ, List.map_append, List.sum_append]
    simp only [List.map_cons, List.map_nil, List.sum_cons, List.sum_nil]
    rw [ih]
    by_cases hc : (m : ℤ) < fs
    · rw [if_pos (Or.inr hc)]
      simp only [Nat.cast_add, Nat.cast_one, add_mul, one_mul]
      omega
    · rw [if_neg (by omega)]
      simp only [Nat.cast_add, Nat.cast_one, add_mul, one_mul]
      omega

/-- For a ratio delta and weight both in `[0, SATOSHIDEN]` the per-weight
emission delta is the exact truncated proportion (no 64-bit truncation). -/
theorem weight_delta_eq (D w : ℤ) (hD0 : 0 ≤ D) (hDb : D ≤ SATOSHIDEN)
    (hw0 : 0 ≤ w) (hwb : w ≤ SATOSHIDEN) :
    i64ofN ((u256 D * u256 w) % 2 ^ 256 / SATn) =
      ((D.toNat * w.toNat / 100000000 : ℕ) : ℤ) := by
  unfold SATOSHIDEN at hDb hwb
  have hud : u256 D = D.toNat := by
    unfold u256; rw [Int.emod_eq_of_lt hD0 (by omega)]
  have huw : u256 w = w.toNat := by
    unfold u256; rw [Int.emod_eq_of_lt hw0 (by omega)]
  rw [hud, huw]
  have hpb : D.toNat * w.toNat ≤ 100000000 * 100000000 :=
    Nat.mul_le_mul (by omega) (by omega)
  unfold i64ofN SATn
  have hm : D.toNat * w.toNat % 2 ^ 256 = D.toNat * w.toNat :=
    Nat.mod_eq_of_lt (by omega)
  rw [hm]
  split <;> omega

/-- The summed per-weight emission deltas are non-negative and do not exceed
the total ratio delta, for a basket of positive weights totalling at most
`SATOSHIDEN`. -/
theorem deltas_sum_le (D : ℤ) (hD0 : 0 ≤ D) (hDb : D ≤ SATOSHIDEN) :
    ∀ (ws : List ℤ), (∀ w ∈ ws, 0 < w) → ws.sum ≤ SATOSHIDEN →
    0 ≤ (ws.map (fun w => i64ofN ((u256 D * u256 w) % 2 ^ 256 / SATn))).sum ∧
    (ws.map (fun w => i64ofN ((u256 D * u256 w) % 2 ^ 256 / SATn))).sum *
      SATOSHIDEN ≤ D * ws.sum := by
  intro ws
  induction ws with
  | nil => intro _ _; simp
  | cons w t ih =>
    intro hpos hsum
    have hw : 0 < w := hpos w (by simp)
    have ht : ∀ w' ∈ t, 0 < w' := fun w' hw' => hpos w' (by simp [hw'])
    have hts0 : 0 ≤ t.sum := sum_pos_nonneg t ht
    rw [List.sum_cons] at hsum
    have hwb : w ≤ SATOSHIDEN := by omega
    have hts : t.sum ≤ SATOSHIDEN := by omega
    obtain ⟨ih0, ih1⟩ := ih ht hts
    rw [List.map_cons, List.sum_cons, List.sum_cons]
    have hd := weight_delta_eq D w hD0 hDb (le_of_lt hw) hwb
    rw [hd]
    have hdiv : ((D.toNat * w.toNat / 100000000 : ℕ) : ℤ) * 100000000 ≤
        ((D.toNat * w.toNat : ℕ) : ℤ) := by
      have := Nat.div_mul_le_self (D.toNat * w.toNat) 100000000
      exact_mod_cast Nat.cast_le.mpr this
    have hcast : ((D.toNat * w.toNat : ℕ) : ℤ) = D * w := by
      push_cast
      rw [Int.toNat_of_nonneg hD0, Int.toNat_of_nonneg (le_of_lt hw)]
    rw [hcast] at hdiv
    constructor
    · have : (0 : ℤ) ≤ ((D.toNat * w.toNat / 100000000 : ℕ) : ℤ) := by positivity
      omega
    · unfold SATOSHIDEN at *
      nlinarith [mul_nonneg hD0 hts0]

/-- The capped banker-rounded emission ratio stays within `[0, Σweights]`
for a positive emission into a positive-supply basket with total weight at
most `SATOSHIDEN`. -/
theorem emissionNewRatio_bounds (IR s k : ℤ)
    (hIR : 0 < IR) (hIRb : IR ≤ SATOSHIDEN)
    (hs : 0 < s) (hsb : s ≤ INT64MAX) (hk : 0 < k) (hkb : k ≤ INT64MAX) :
    0 ≤ emissionNewRatio IR s k ∧ emissionNewRatio IR s k ≤ IR := by
  unfold SATOSHIDEN at hIRb
  unfold INT64MAX at hsb hkb
  have hui : u256 IR = IR.toNat := by
    unfold u256; rw [Int.emod_eq_of_lt (le_of_lt hIR) (by omega)]
  have hus : u256 s = s.toNat := by
    unfold u256; rw [Int.emod_eq_of_lt (le_of_lt hs) (by omega)]
  have huk : u256 k = k.toNat := by
    unfold u256; rw [Int.emod_eq_of_lt (le_of_lt hk) (by omega)]
  unfold emissionNewRatio
  rw [hui, hus, huk]
  have hA : IR.toNat * s.toNat * SATn % 2 ^ 256 = IR.toNat * s.toNat * SATn := by
    apply Nat.mod_eq_of_lt
    have h1 : IR.toNat * s.toNat ≤ 100000000 * 9223372036854775807 :=
      Nat.mul_le_mul (by omega) (by omega)
    have h2 : IR.toNat * s.toNat * SATn ≤
        100000000 * 9223372036854775807 * 100000000 := by
      unfold SATn
      exact Nat.mul_le_mul h1 (le_refl _)
    omega
  have hB : (s.toNat + k.toNat) % 2 ^ 256 = s.toNat + k.toNat :=
    Nat.mod_eq_of_lt (by omega)
  rw [hA, hB]
  dsimp only
  have hBpos : 0 < s.toNat + k.toNat := by omega
  have hscr : IR.toNat * s.toNat * SATn / (s.toNat + k.toNat) < IR.toNat * SATn := by
    rw [Nat.div_lt_iff_lt_mul hBpos]
    have he : IR.toNat * s.toNat * SATn = (IR.toNat * SATn) * s.toNat := by ring
    rw [he]
    exact mul_lt_mul_of_pos_left (by omega)
      (Nat.mul_pos (by omega) (by unfold SATn; omega))
  have hbr : IR.toNat * s.toNat * SATn / (s.toNat + k.toNat) / SATn < IR.toNat := by
    rw [Nat.div_lt_iff_lt_mul (by unfold SATn; omega)]
    exact hscr
  have hcap : ¬ (IR.toNat * s.toNat * SATn / (s.toNat + k.toNat) / SATn ≥ SATn) := by
    unfold SATn at *
    omega
  rw [if_neg hcap, if_neg hcap]
  have hnr : i64ofN (IR.toNat * s.toNat * SATn / (s.toNat + k.toNat) / SATn) =
      ((IR.toNat * s.toNat * SATn / (s.toNat + k.toNat) / SATn : ℕ) : ℤ) := by
    unfold i64ofN
    rw [Nat.mod_eq_of_lt (by unfold SATn at *; omega)]
    rw [if_pos (by unfold SATn at *; omega)]
  have h0nr : 0 ≤ i64ofN (IR.toNat * s.toNat * SATn / (s.toNat + k.toNat) / SATn) := by
    rw [hnr]
    positivity
  have hIRnr : i64ofN (IR.toNat * s.toNat * SATn / (s.toNat + k.toNat) / SATn) < IR := by
    rw [hnr]
    omega
  split
  · constructor <;> omega
  · constructor <;> omega

/-- The emission weight update drives the total weight exactly to the
capped banker-rounded new ratio, for any permutation `sh`. -/
theorem emissionWeights_sum (sh : List ℤ → List ℤ)
    (hsh : ∀ l : List ℤ, (sh l).Perm l)
    (weights : List ℤ) (nCur : ℕ) (s k : ℤ)
    (hlen : weights.length = nCur) (hn : 0 < nCur)
    (hwpos : ∀ w ∈ weights, 0 < w) (hwsum : weights.sum ≤ SATOSHIDEN)
    (hs : 0 < s) (hsb : s ≤ INT64MAX) (hk : 0 < k) (hkb : k ≤ INT64MAX) :
    (emissionWeights sh weights nCur s k).sum = emissionNewRatio weights.sum s k := by
  have hfold : weights.foldl (· + ·) 0 = weights.sum := by
    rw [foldl_add_eq]; ring
  have hIRpos : 0 < weights.sum := by
    cases weights with
    | nil => simp at hlen; omega
    | cons w t =>
      rw [List.sum_cons]
      have h1 := hwpos w (by simp)
      have h2 := sum_pos_nonneg t (fun x hx => hwpos x (by simp [hx]))
      omega
  obtain ⟨hb0, hb1⟩ :=
    emissionNewRatio_bounds weights.sum s k hIRpos hwsum hs hsb hk hkb
  set NR := emissionNewRatio weights.sum s k with hNR
  set D := weights.sum - NR with hD
  obtain ⟨hd0, hd1⟩ := deltas_sum_le D (by omega) (by omega) weights hwpos hwsum
  set deltas := weights.map (fun w => i64ofN ((u256 D * u256 w) % 2 ^ 256 / SATn))
    with hdel
  have hlenwd : weights.length = deltas.length := by
    rw [hdel, List.length_map]
  have hdsum : deltas.sum ≤ D := by
    have hDSAT : D * weights.sum ≤ D * SATOSHIDEN :=
      mul_le_mul_of_nonneg_left hwsum (by omega)
    have hSATpos : (0 : ℤ) < SATOSHIDEN := by unfold SATOSHIDEN; omega
    nlinarith
  unfold emissionWeights
  rw [hfold]
  dsimp only
  rw [foldl_add_eq, zero_add]
  rw [← hNR, ← hD, ← hdel]
  split
  · rename_i h
    rw [sum_zipWith_sub weights deltas hlenwd]
    omega
  · rename_i h
    set uE := D - deltas.sum with huE
    set n : ℤ := (nCur : ℤ) with hnZ
    have hnpos : (0 : ℤ) < n := by rw [hnZ]; exact_mod_cast hn
    have hfs0 : 0 ≤ cppMod uE n := Int.tmod_nonneg n (by omega)
    have hfslt : cppMod uE n < n := Int.tmod_lt_of_pos uE hnpos
    set extras := (List.range nCur).map
      (fun (i : ℕ) => if cppMod uE n < 0 ∨ (i : ℤ) < cppMod uE n
                      then cppDiv uE n + 1 else cppDiv uE n) with hex
    have hsum_ex : extras.sum = n * cppDiv uE n + cppMod uE n := by
      rw [hex, extras_sum (cppDiv uE n) (cppMod uE n) hfs0 nCur]
      have hmin : min (cppMod uE n) (nCur : ℤ) = cppMod uE n := by
        rw [← hnZ]; omega
      rw [hmin, hnZ]
    have hdm : n * cppDiv uE n + cppMod uE n = uE := by
      unfold cppDiv cppMod
      exact Int.tdiv_add_tmod uE n
    have hlen1 : (weights.zipWith (· - ·) deltas).length = (sh extras).length := by
      rw [(hsh extras).length_eq, hex, List.length_map, List.length_range,
          List.length_zipWith]
      omega
    rw [sum_zipWith_sub _ _ hlen1, sum_zipWith_sub weights deltas hlenwd,
        (hsh extras).sum_eq, hsum_ex, hdm]
    omega

-- A fractional state with a 50%-backed two-currency basket (weights 0.4 and
-- 0.1), used against the per-weight proportionality claim.
def stC7 : CCState :=
  { currencies := [1, 2], weights := [40000000, 10000000],
    reserves := [100000000, 100000000], supply := 100000000,
    initialSupply := 0, emitted := 0, flags := 1 }

/-- C7 counterexample: it is not the case that for every fractional state
and positive emission each updated weight equals the previous weight times
`supply/(supply+k)` within one base unit: on the 50%-backed basket
`weights = [0.4, 0.1]` with `supply = k = 10⁸`, the first updated weight is
`23750000` where proportionality demands `20000000`, an error of 3.75·10⁶
base units. -/
theorem updateWithEmission_per_weight_not_proportional :
    ¬ (∀ (sh : List ℤ → List ℤ), (∀ l : List ℤ, (sh l).Perm l) →
       ∀ (st : CCState) (k : ℤ), st.isFractional = true → 0 < st.supply →
       ¬ st.reserves.all (· ≤ 0) = true → 0 < k →
       (st.UpdateWithEmission sh k).reserves = st.reserves ∧
       (st.UpdateWithEmission sh k).supply = st.supply + k ∧
       ∀ i < st.weights.length,
         |((st.UpdateWithEmission sh k).weights.getD i 0) * (st.supply + k) -
           (st.weights.getD i 0) * st.supply| ≤ st.supply + k) := by
  intro h
  have h0 := (h id (fun l => List.Perm.refl l) stC7 100000000 (by decide) (by decide)
      (by decide) (by decide)).2.2 0 (by decide)
  revert h0
  decide

/-- C7 (amended): for a fractional state with positive supply, positive
weights totalling at most `SATOSHIDEN` and some positive reserve, emitting
`k > 0` leaves the reserves untouched, sets `supply := supply + k`, and
drives the *total* weight to the banker-rounded capped ratio
`emissionNewRatio (Σ weights) supply k ≈ Σ weights · supply/(supply+k)`,
whatever permutation the remainder shuffle applies; the claimed per-weight
proportionality does not hold in general (see the counterexample). -/
theorem updateWithEmission_emission (sh : List ℤ → List ℤ)
    (hsh : ∀ l : List ℤ, (sh l).Perm l) (st : CCState) (k : ℤ)
    (hfrac : st.isFractional = true)
    (hsup : 0 < st.supply) (hsupb : st.supply ≤ INT64MAX)
    (hres : ¬ st.reserves.all (· ≤ 0) = true)
    (hk : 0 < k) (hkb : k ≤ INT64MAX)
    (hlw : st.weights.length = st.currencies.length)
    (hlr : st.reserves.length = st.currencies.length)
    (hwpos : ∀ w ∈ st.weights, 0 < w)
    (hwsum : st.weights.sum ≤ SATOSHIDEN) :
    (st.UpdateWithEmission sh k).reserves = st.reserves ∧
    (st.UpdateWithEmission sh k).supply = st.supply + k ∧
    (st.UpdateWithEmission sh k).weights.sum =
      emissionNewRatio st.weights.sum st.supply k := by
  unfold CCState.UpdateWithEmission
  have hcond : ¬ (¬ ({ st with initialSupply := st.supply, emitted := 0
      } : CCState).isFractional = true ∨
      ({ st with initialSupply := st.supply, emitted := 0 } : CCState).supply ≤ 0 ∨
      ({ st with initialSupply := st.supply, emitted := 0
      } : CCState).reserves.all (· ≤ 0) = true) := by
    intro h
    rcases h with h | h | h
    · exact h hfrac
    · have h' : st.supply ≤ 0 := h
      omega
    · exact hres h
  rw [if_neg hcond, if_neg (show ¬ k = 0 by omega)]
  have hn : 0 < st.currencies.length := by
    have hne : st.reserves ≠ [] := by
      intro he
      apply hres
      rw [he]
      rfl
    have := List.length_pos.mpr hne
    omega
  exact ⟨rfl, rfl,
    emissionWeights_sum sh hsh st.weights st.currencies.length st.supply k
      hlw hn hwpos hwsum hsup hsupb hk hkb⟩

/-- Witness for the C7 theorem: the 50%-backed basket doubles its supply and
halves its total weight (`5·10⁷ → 2.5·10⁷`) with reserves unchanged. -/
theorem updateWithEmission_emission_witness :
    (stC7.UpdateWithEmission id 100000000).reserves = stC7.reserves ∧
    (stC7.UpdateWithEmission id 100000000).supply = stC7.supply + 100000000 ∧
    (stC7.UpdateWithEmission id 100000000).weights.sum =
      emissionNewRatio stC7.weights.sum stC7.supply 100000000 :=
  updateWithEmission_emission id (fun l => List.Perm.refl l) stC7 100000000
    (by decide) (by decide) (by decide) (by decide) (by decide) (by decide)
    (by decide) (by decide) (by decide) (by decide)

-- ------------------------------------------------------------------
-- C1: the spec's single-reserve conversion scenario, evaluated through
-- every phase of `ConvertAmounts`
-- ------------------------------------------------------------------

theorem c1_netFlows : netFlows stC1 [100000000] [0] 100000000 =
    .ok ([], [⟨100000000, 100000000, 7⟩]) := rfl

theorem c1_layersIn : buildLayers stC1 100000000 false 0 [] = .ok [] := by
  rw [buildLayers]
  rfl

theorem c1_layersOut : buildLayers stC1 100000000 true 0 [⟨100000000, 100000000, 7⟩] =
    .ok [⟨100000000, 100000000, [7]⟩] := by
  have h0 : buildLayers
      { currencies := [7], weights := [100000000], reserves := [400000000],
        supply := 400000000, initialSupply := 0, emitted := 0, flags := 1 }
      100000000 true 100000000 [] = Except.ok [] := by
    rw [buildLayers]
    rfl
  rw [buildLayers]
  split
  · rename_i htl
    exact absurd htl (by decide)
  · rename_i e rest htl
    rw [show List.dropWhile (fun e => decide (e.key ≤ (0:ℤ)))
        [(⟨100000000, 100000000, 7⟩ : NetEntry)] = [⟨100000000, 100000000, 7⟩]
        from by decide] at htl
    injection htl with h1 h2
    subst h1
    subst h2
    simp [processLayerOut, stC1, CCState.weightOf, u256, i64ofN, SATn, INT64MAX,
      pure, Except.pure, bind, Except.bind, h0]

theorem c1_sell (pw : ℚ → ℚ → ℚ) : sellPass pw stC1 500000000 [] = .ok (0, 0, 0, []) := rfl

theorem c1_price : priceSynthesis stC1 [100000000] [0] [(7, 100000000, 100000000)] [] =
    .ok ([100000000], stC1after) := rfl

theorem c1_cfo (pw : ℚ → ℚ → ℚ) (hpw : ∀ x : ℚ, pw x 1 = x) :
    CalculateFractionalOut pw 100000000 400000000 400000000 100000000 = 100000000 := by
  have hdec : fractionalOutDec pw 100000000 400000000 400000000 100000000
      = ((100000000 : ℤ) : ℚ) := by
    unfold fractionalOutDec
    norm_num
    rw [hpw]
    norm_num
  unfold CalculateFractionalOut
  rw [if_pos (by decide), hdec]
  have htr : truncQ (100000000 : ℚ) = 100000000 := by
    unfold truncQ
    rw [Rat.num_ofNat, Rat.den_ofNat]
    decide
  have ht : to_int64q ((100000000 : ℤ) : ℚ) = some 100000000 := by
    simp [to_int64q, htr]
    decide
  rw [ht]

theorem c1_buyFirst (pw : ℚ → ℚ → ℚ) (hpw : ∀ x : ℚ, pw x 1 = x) :
    buyPassFirst pw stC1 [⟨100000000, 100000000, [7]⟩] =
      .ok (100000000, 100000000, [(7, 100000000, 0)]) := by
  have hcfo := c1_cfo pw hpw
  simp [buyPassFirst, stC1, CCState.weightOf, u256, i64ofN, SATn, INT64MAX,
    pure, Except.pure, bind, Except.bind, mapAddFirst, hcfo]

theorem c1_buySecond (pw : ℚ → ℚ → ℚ) (hpw : ∀ x : ℚ, pw x 1 = x) :
    buyPassSecond pw stC1 400000000 [⟨100000000, 100000000, [7]⟩]
      [(7, 100000000, 0)] = .ok [(7, 100000000, 100000000)] := by
  have hcfo := c1_cfo pw hpw
  simp [buyPassSecond, stC1, CCState.weightOf, u256, i64ofN, SATn, INT64MAX,
    pure, Except.pure, bind, Except.bind, mapAddSnd, hcfo]

theorem c1_mainBody (pw : ℚ → ℚ → ℚ) (hpw : ∀ x : ℚ, pw x 1 = x) :
    mainBody pw stC1 [100000000] [0] = .ok ([100000000], stC1after) := by
  simp [mainBody, c1_netFlows, c1_layersIn, c1_layersOut, c1_sell pw,
    c1_buyFirst pw hpw, c1_buySecond pw hpw, c1_price,
    bind, Except.bind, pure, Except.pure,
    show stC1.weights = [100000000] from rfl,
    show stC1.supply = (400000000 : ℤ) from rfl]
  decide

/-- The canonical power function is the identity at exponent one. -/
theorem ratPow_one (x : ℚ) : ratPow x 1 = x := by
  have hd : (1 : ℚ).den = 1 := by decide
  have hn : (1 : ℚ).num = 1 := by decide
  unfold ratPow
  rw [if_pos hd, hn, zpow_one]

/-- C1: on the single-reserve state with weight `SATOSHIDEN`,
`supply = reserves[0] = 4·10⁸`, converting `inputReserves = [10⁸]`,
`inputFractional = [0]` returns the 1:1 price `rates = [10⁸]` and writes
`newState` with `supply = 5·10⁸` and `reserves[0] = 5·10⁸` — for every
decimal power function that is exact at exponent one (the only exponent
this scenario uses; boost's `pow` is). -/
theorem singleReserve_conversion_scenario (pw : ℚ → ℚ → ℚ)
    (hpw : ∀ x : ℚ, pw x 1 = x) :
    ConvertAmounts pw stC1 [100000000] [0] none =
      some ([100000000], some stC1after, none) := by
  unfold ConvertAmounts
  rw [if_neg (by decide), if_neg (by decide)]
  rw [c1_mainBody pw hpw]
  rfl

/-- Witness for C1: the scenario at the canonical exact power function. -/
theorem singleReserve_conversion_scenario_witness :
    ConvertAmounts ratPow stC1 [100000000] [0] none =
      some ([100000000], some stC1after, none) :=
  singleReserve_conversion_scenario ratPow ratPow_one
